import Mathlib

set_option linter.unusedVariables false

/-!
A shallow embedding of the DSL rule engine and parser of
`AzureDevOpsAutoUpdateWorkItems` (files `src/dsl/RuleDefinition.ts`,
`src/dsl/RuleEngine.ts`, `src/functions/OnWorkItemUpdated.ts` and the
work-item boundary module), together with theorems checking the
natural-language specification against this embedding.

JavaScript strings are modelled through `List Char`; all string scanning
helpers are written character by character so that they compute.  The
`matches` / `not matches` operators construct a JavaScript `RegExp` from the
right-hand value and test the left-hand value; regular-expression matching
itself is outside the embedded fragment, so the engine is parameterised by a
total oracle `rt : String → String → Bool` standing for
`(l, r) ↦ new RegExp(r).test(l)`.
-/

namespace BCT3ch

/-! ## Character-level helpers (JavaScript string primitives) -/

/-- Trim whitespace from both ends of a character list (JS `String.trim`). -/
def trimChars (cs : List Char) : List Char :=
  ((cs.dropWhile Char.isWhitespace).reverse.dropWhile Char.isWhitespace).reverse

/-- JS `haystack.includes(needle)` on character lists. -/
def hasInfix (hay needle : List Char) : Bool :=
  needle.isPrefixOf hay ||
    match hay with
    | [] => false
    | _ :: t => hasInfix t needle

/-- JS `s.trim()` on strings, computed characterwise. -/
def strTrim (s : String) : String := String.mk (trimChars s.data)

/-- JS `s.startsWith(pre)`. -/
def strStartsWith (s pre : String) : Bool := pre.data.isPrefixOf s.data

/-- JS `s.endsWith(suf)`. -/
def strEndsWith (s suf : String) : Bool := suf.data.isSuffixOf s.data

/-- JS `s.includes(sub)`. -/
def strIncludes (s sub : String) : Bool := hasInfix s.data sub.data

/-- ASCII lower-casing of one character (enough for `toLowerCase` on field names). -/
def charLower (c : Char) : Char :=
  if 'A' ≤ c ∧ c ≤ 'Z' then Char.ofNat (c.toNat + 32) else c

/-- JS `s.toLowerCase()` (ASCII fragment). -/
def strLower (s : String) : String := String.mk (s.data.map charLower)

/-- JS `tags.split("; ")` with the literal two-character separator,
as used by the tag add/remove actions. -/
def splitTagSepGo : List Char → List Char → List (List Char)
  | [], cur => [cur]
  | ';' :: ' ' :: rest, cur => cur :: splitTagSepGo rest []
  | c :: rest, cur => splitTagSepGo rest (cur ++ [c])

/-- JS `arr.join("; ")`. -/
def joinTagSep : List (List Char) → List Char
  | [] => []
  | [p] => p
  | p :: rest => p ++ ';' :: ' ' :: joinTagSep rest

/-! ## Data model (`RuleDefinition.ts`, `WorkItem` from `RuleEngine.ts`) -/

/-- The `object` selector of a `RuleObjectOperand`:
`"implicit" | "me" | "parent" | "child" | "children"`. -/
inductive Scope where
  | implicit
  | me
  | parent
  | child
  | children
deriving DecidableEq, Repr

/-- Comparison operators of a `RuleCondition`. -/
inductive Operator where
  | matches
  | notMatches
  | is
  | isNot
  | contains
  | startsWith
  | endsWith
deriving DecidableEq, Repr

/-- Action operators of a `RuleThenActions`. -/
inductive ActionOp where
  | set
  | add
  | remove
deriving DecidableEq, Repr

/-- A JavaScript value stored in a work-item field or produced by operand
resolution: a string, the numeric work-item id, or a `WorkItemAssignedTo`
composite `{displayName, uniqueName}`. -/
inductive Value where
  | str (s : String)
  | num (n : Int)
  | user (displayName uniqueName : String)
deriving DecidableEq, Repr

/-- JS `String(value)` coercion on the values above (an object coerces to
`"[object Object]"`). -/
def Value.toStr : Value → String
  | .str s => s
  | .num n => toString n
  | .user _ _ => "[object Object]"

mutual

/-- `RuleConstOperand | RuleObjectOperand` together with the nested
`RuleCondition` list carried by `child`/`children` operands
(`conditions?: RuleCondition[]`, `none` when the property is absent). -/
inductive Operand where
  | const (value : String)
  | obj (scope : Scope) (conditions : Option (List Condition)) (field : String)

/-- `RuleCondition`: left operand, comparison operator, right operand. -/
inductive Condition where
  | mk (leftOperand : Operand) (operator : Operator) (rightOperand : Operand)

end

/-- The `leftOperand` property of a `RuleCondition`. -/
def Condition.leftOperand : Condition → Operand
  | .mk l _ _ => l

/-- The `operator` property of a `RuleCondition`. -/
def Condition.operator : Condition → Operator
  | .mk _ op _ => op

/-- The `rightOperand` property of a `RuleCondition`. -/
def Condition.rightOperand : Condition → Operand
  | .mk _ _ r => r

/-- `RuleAlterOptions`: both flags are optional in the TypeScript interface. -/
structure AlterOptions where
  suppressNotifications : Option Bool := none
  bypassRules : Option Bool := none
deriving DecidableEq, Repr

/-- `RuleThenActions`.  The TypeScript interface declares
`assignableLeftOperand : RuleObjectOperand`, but the parser stores whatever
`parseOperand` returned through an unchecked cast, so the embedding keeps the
full operand union here. -/
structure RuleAction where
  operator : ActionOp
  alterOptions : AlterOptions
  assignableLeftOperand : Operand
  valueToAssign : Operand

/-- `Rule`. -/
structure Rule where
  name : String
  whenConditions : List Condition
  thenActions : List RuleAction

/-- A work-item relation (unused by the engine's field logic but part of the
record). -/
structure Relation where
  rel : String
  url : String
  attrName : Option String
deriving DecidableEq, Repr

/-- `WorkItem`: identity, url and the field map (modelled as an association
list from canonical field key to value). -/
structure WorkItem where
  id : Int
  url : String
  fields : List (String × Value)
  relations : List Relation := []
deriving DecidableEq, Repr

/-- `UpdateOperation`: `op` is always `"replace"` and is kept as a literal
field. -/
structure UpdateOperation where
  url : String
  suppressNotifications : Option Bool
  bypassRules : Option Bool
  op : String
  path : String
  value : String
deriving DecidableEq, Repr

/-! ## Operand resolution and condition evaluation (`RuleEngine.ts`)

All functions take the regular-expression oracle `rt` first; it is only
consulted by the `matches` / `not matches` operators. -/

/-- The fixed alias table of `resolveOperand` mapping DSL field names to
canonical work-item attribute keys. -/
def fieldMap (f : String) : Option String :=
  if f = "Id" then some "id"
  else if f = "Title" then some "System.Title"
  else if f = "State" then some "System.State"
  else if f = "AssignedTo" then some "System.AssignedTo"
  else if f = "Tags" then some "System.Tags"
  else if f = "Reason" then some "System.Reason"
  else if f = "WorkItemType" then some "System.WorkItemType"
  else if f = "AreaPath" then some "System.AreaPath"
  else if f = "TeamProject" then some "System.TeamProject"
  else if f = "IterationPath" then some "System.IterationPath"
  else none

/-- The field-reading tail of `resolveOperand`: map the DSL field name through
`fieldMap` (`fieldMap[operand.field] || operand.field`), read the id for
`"id"`, otherwise look the key up in the field map. -/
def readField (wi : WorkItem) (f : String) : Option Value :=
  let actualFieldName := (fieldMap f).getD f
  if actualFieldName = "id" then some (.num wi.id)
  else wi.fields.lookup actualFieldName

/-- `evaluateCondition`'s operator dispatch after both sides are coerced to
strings.  `matches`/`not matches` consult the `RegExp` oracle with the right
value as the pattern. -/
def applyOperator (rt : String → String → Bool) :
    Operator → String → String → Bool
  | .matches, l, r => rt l r
  | .notMatches, l, r => !(rt l r)
  | .is, l, r => l == r
  | .isNot, l, r => l != r
  | .contains, l, r => strIncludes l r
  | .startsWith, l, r => strStartsWith l r
  | .endsWith, l, r => strEndsWith l r

mutual

/-- `RuleEngine.evaluateCondition`: resolve both operands against the item
context; if either is `undefined` the condition is false, otherwise coerce
both to strings and apply the operator. -/
def evaluateCondition (rt : String → String → Bool) (condition : Condition)
    (implicitWorkItem triggeringWorkItem : WorkItem)
    (parentWorkItem : Option WorkItem) (childWorkItems : List WorkItem) : Bool :=
  match condition with
  | .mk l op r =>
    match resolveOperand rt l implicitWorkItem triggeringWorkItem parentWorkItem childWorkItems,
          resolveOperand rt r implicitWorkItem triggeringWorkItem parentWorkItem childWorkItems with
    | some leftValue, some rightValue =>
      applyOperator rt op leftValue.toStr rightValue.toStr
    | _, _ => false
termination_by (sizeOf condition, 5, 0)

/-- `RuleEngine.resolveOperand`: a constant resolves to its value; an object
operand resolves the referenced work item and then reads the (alias-mapped)
field, yielding `none` for a missing item or field. -/
def resolveOperand (rt : String → String → Bool) (operand : Operand)
    (implicitWorkItem triggeringWorkItem : WorkItem)
    (parentWorkItem : Option WorkItem) (childWorkItems : List WorkItem) : Option Value :=
  match operand with
  | .const v => some (.str v)
  | .obj scope conditions field =>
    match getWorkItemForOperand rt scope conditions implicitWorkItem triggeringWorkItem
        parentWorkItem childWorkItems with
    | none => none
    | some wi => readField wi field
termination_by (sizeOf operand, 4, 0)

/-- `RuleEngine.getWorkItemForOperand`: scope dispatch.  For `children` the
code also returns the first matching child (a noted limitation). -/
def getWorkItemForOperand (rt : String → String → Bool) (scope : Scope)
    (conditions : Option (List Condition))
    (implicitWorkItem triggeringWorkItem : WorkItem)
    (parentWorkItem : Option WorkItem) (childWorkItems : List WorkItem) : Option WorkItem :=
  match scope with
  | .me => some triggeringWorkItem
  | .parent => parentWorkItem
  | .child => findMatchingChild rt conditions triggeringWorkItem parentWorkItem childWorkItems
  | .children => findMatchingChild rt conditions triggeringWorkItem parentWorkItem childWorkItems
  | .implicit => some implicitWorkItem
termination_by (sizeOf conditions, 3, 0)

/-- `RuleEngine.findMatchingChild`: first child if there are no conditions,
otherwise the first child satisfying every condition. -/
def findMatchingChild (rt : String → String → Bool)
    (conditions : Option (List Condition)) (triggeringWorkItem : WorkItem)
    (parentWorkItem : Option WorkItem) (childWorkItems : List WorkItem) : Option WorkItem :=
  match conditions with
  | none => childWorkItems.head?
  | some cs =>
    if cs.isEmpty then childWorkItems.head?
    else findFirstMatchingChild rt cs childWorkItems triggeringWorkItem parentWorkItem
        childWorkItems
termination_by (sizeOf conditions, 2, 0)

/-- The candidate loop of `findMatchingChild`. -/
def findFirstMatchingChild (rt : String → String → Bool) (cs : List Condition)
    (candidates : List WorkItem) (triggeringWorkItem : WorkItem)
    (parentWorkItem : Option WorkItem) (childWorkItems : List WorkItem) : Option WorkItem :=
  match candidates with
  | [] => none
  | child :: rest =>
    if allConditionsMet rt cs child triggeringWorkItem parentWorkItem childWorkItems then
      some child
    else findFirstMatchingChild rt cs rest triggeringWorkItem parentWorkItem childWorkItems
termination_by (sizeOf cs, 1, candidates.length)

/-- The inner condition loop shared by `findMatchingChild` and
`findMatchingChildren`: every condition is evaluated with the candidate child
as the implicit work item (scope shadowing). -/
def allConditionsMet (rt : String → String → Bool) (cs : List Condition)
    (child triggeringWorkItem : WorkItem) (parentWorkItem : Option WorkItem)
    (childWorkItems : List WorkItem) : Bool :=
  match cs with
  | [] => true
  | c :: rest =>
    evaluateCondition rt c child triggeringWorkItem parentWorkItem childWorkItems &&
      allConditionsMet rt rest child triggeringWorkItem parentWorkItem childWorkItems
termination_by (sizeOf cs, 0, 0)

end

/-- `RuleEngine.findMatchingChildren`: all children when there are no
conditions, otherwise every child satisfying all conditions (the candidate
loop is a filter). -/
def findMatchingChildren (rt : String → String → Bool)
    (conditions : Option (List Condition)) (triggeringWorkItem : WorkItem)
    (parentWorkItem : Option WorkItem) (childWorkItems : List WorkItem) : List WorkItem :=
  match conditions with
  | none => childWorkItems
  | some cs =>
    if cs.isEmpty then childWorkItems
    else childWorkItems.filter fun child =>
      allConditionsMet rt cs child triggeringWorkItem parentWorkItem childWorkItems

/-- `RuleEngine.resolveTargetWorkItems`: scope dispatch on
`operand.object`; a `const` operand has no `object` property, so in
JavaScript the `switch` falls to the `default` branch, as does `implicit`. -/
def resolveTargetWorkItems (rt : String → String → Bool) (operand : Operand)
    (triggeringWorkItem : WorkItem) (parentWorkItem : Option WorkItem)
    (childWorkItems : List WorkItem) : List WorkItem :=
  match operand with
  | .obj .me _ _ => [triggeringWorkItem]
  | .obj .parent _ _ => parentWorkItem.toList
  | .obj .child conditions _ =>
    (findMatchingChild rt conditions triggeringWorkItem parentWorkItem childWorkItems).toList
  | .obj .children conditions _ =>
    findMatchingChildren rt conditions triggeringWorkItem parentWorkItem childWorkItems
  | .obj .implicit _ _ => [triggeringWorkItem]
  | .const _ => [triggeringWorkItem]

/-- The `field` property read on an operand by `executeAction`; on a `const`
operand the JavaScript property access yields `undefined`, which prints as
`"undefined"` inside the template literal forming the field path. -/
def Operand.fieldName : Operand → String
  | .obj _ _ f => f
  | .const _ => "undefined"

/-- The effective value string of `executeAction`: `String(value)` unless the
value is an assigned-user composite, in which case its `uniqueName` is used
(the `'uniqueName' in value` probe throws and is swallowed for primitives). -/
def effectiveValueString : Value → String
  | .user _ uniqueName => uniqueName
  | v => v.toStr

/-- JS `workItem.fields["System.Tags"] || ""` as read by the tag actions.
The TypeScript `WorkItem` interface types this field `string | undefined`,
so a non-string value is modelled as the falsy default. -/
def tagsStringOf (wi : WorkItem) : String :=
  match wi.fields.lookup "System.Tags" with
  | some (.str s) => s
  | _ => ""

/-- The `currentTags ? currentTags.split("; ") : []` array of the tag
actions. -/
def tagsArrayOf (wi : WorkItem) : List String :=
  if tagsStringOf wi = "" then []
  else (splitTagSepGo (tagsStringOf wi).data []).map String.mk

/-- JS `arr.join("; ")` on strings. -/
def joinTags (parts : List String) : String :=
  String.mk (joinTagSep (parts.map String.data))

/-- The per-target body of `executeAction`: build zero or one
`UpdateOperation` for one resolved target work item, the resolved value
already being fixed. -/
def opsForTarget (action : RuleAction) (workItem : WorkItem) (value : Value) :
    List UpdateOperation :=
  let fieldPath := "/fields/System." ++ action.assignableLeftOperand.fieldName
  let valueAsString := effectiveValueString value
  match action.operator with
  | .set =>
    [{ url := workItem.url,
       suppressNotifications := action.alterOptions.suppressNotifications,
       bypassRules := action.alterOptions.bypassRules,
       op := "replace", path := fieldPath, value := valueAsString }]
  | .add =>
    if strLower action.assignableLeftOperand.fieldName = "tags" then
      let tagsArray := tagsArrayOf workItem
      if tagsArray.contains valueAsString then []
      else
        [{ url := workItem.url,
           suppressNotifications := action.alterOptions.suppressNotifications,
           bypassRules := action.alterOptions.bypassRules,
           op := "replace", path := fieldPath,
           value := joinTags (tagsArray ++ [valueAsString]) }]
    else
      [{ url := workItem.url,
         suppressNotifications := action.alterOptions.suppressNotifications,
         bypassRules := action.alterOptions.bypassRules,
         op := "replace", path := fieldPath, value := valueAsString }]
  | .remove =>
    if strLower action.assignableLeftOperand.fieldName = "tags" then
      let filteredTags := (tagsArrayOf workItem).filter (fun tag => tag ≠ valueAsString)
      [{ url := workItem.url,
         suppressNotifications := action.alterOptions.suppressNotifications,
         bypassRules := action.alterOptions.bypassRules,
         op := "replace", path := fieldPath, value := joinTags filteredTags }]
    else []

/-- `RuleEngine.executeAction`: resolve the target list and the value (with
the triggering item as the implicit item); an unresolved value produces no
operations, otherwise the per-target operations are emitted in target
order. -/
def executeAction (rt : String → String → Bool) (action : RuleAction)
    (triggeringWorkItem : WorkItem) (parentWorkItem : Option WorkItem)
    (childWorkItems : List WorkItem) : List UpdateOperation :=
  let targetWorkItems := resolveTargetWorkItems rt action.assignableLeftOperand
    triggeringWorkItem parentWorkItem childWorkItems
  match resolveOperand rt action.valueToAssign triggeringWorkItem triggeringWorkItem
      parentWorkItem childWorkItems with
  | none => []
  | some value => targetWorkItems.flatMap fun wi => opsForTarget action wi value

/-- `RuleEngine.evaluateRule`: the conjunction of all `when` conditions, each
evaluated with the triggering item as the implicit item. -/
def evaluateRule (rt : String → String → Bool) (rule : Rule)
    (triggeringWorkItem : WorkItem) (parentWorkItem : Option WorkItem)
    (childWorkItems : List WorkItem) : Bool :=
  rule.whenConditions.all fun c =>
    evaluateCondition rt c triggeringWorkItem triggeringWorkItem parentWorkItem childWorkItems

/-- `RuleEngine.executeRule`: concatenate the operations of all actions in
action order. -/
def executeRule (rt : String → String → Bool) (rule : Rule)
    (triggeringWorkItem : WorkItem) (parentWorkItem : Option WorkItem)
    (childWorkItems : List WorkItem) : List UpdateOperation :=
  rule.thenActions.flatMap fun action =>
    executeAction rt action triggeringWorkItem parentWorkItem childWorkItems

/-- The rule loop of `OnWorkItemUpdated`: iterate rules in declared order,
execute the first applicable rule's operations and stop (`break`); no
applicable rule means no operations. -/
def runRules (rt : String → String → Bool) (rules : List Rule)
    (triggeringWorkItem : WorkItem) (parentWorkItem : Option WorkItem)
    (childWorkItems : List WorkItem) : List UpdateOperation :=
  match rules with
  | [] => []
  | rule :: rest =>
    if evaluateRule rt rule triggeringWorkItem parentWorkItem childWorkItems then
      executeRule rt rule triggeringWorkItem parentWorkItem childWorkItems
    else runRules rt rest triggeringWorkItem parentWorkItem childWorkItems

/-! ## Dispatch flag merge (`sendUpdateOperations` in the work-item module) -/

/-- The effective flags computed by `sendUpdateOperations` for one group of
operations destined for a single work item (the `axios.patch` call that would
carry them is commented out in the source; the flag merge itself is live
code):
`suppressNotifications = operations.some(op => op.suppressNotifications === false) ? false : true`
and
`bypassRules = operations.some(op => op.bypassRules === true) ? true : false`. -/
def sendFlags (operations : List UpdateOperation) : Bool × Bool :=
  (if operations.any (fun op => op.suppressNotifications == some false) then false else true,
   if operations.any (fun op => op.bypassRules == some true) then true else false)

/-! ## Parser (`DSLParser` in `OnWorkItemUpdated.ts`)

The anchored JavaScript regular expressions used by the parser are modelled
by a tiny backtracking matcher over a fixed atom language.  Greedy atoms try
longer matches first, lazy atoms shorter ones, which reproduces the
backtracking order of the JavaScript engine on these patterns. -/

/-- Atoms of the anchored action/header patterns: a literal, greedy `\s+`,
greedy `\s*`, a lazy capturing `([^x]+?)`, a greedy capturing `([^x]+)`, and
a greedy capturing `(.+)`. -/
inductive RE where
  | lit (s : String)
  | wsPlus
  | wsStar
  | capLazyNot (ex : Char)
  | capGreedyNot (ex : Char)
  | capGreedyAny

/-- Anchored matching of an atom sequence against a whole character list,
returning the captured groups in order.  Alternatives are explored in the
JavaScript backtracking order. -/
def matchSeq : List RE → List Char → Option (List (List Char))
  | [], cs => if cs.isEmpty then some [] else none
  | .lit s :: rest, cs =>
    if s.data.isPrefixOf cs then matchSeq rest (cs.drop s.data.length) else none
  | .wsPlus :: rest, cs =>
    let m := (cs.takeWhile Char.isWhitespace).length
    (List.range m).findSome? fun j => matchSeq rest (cs.drop (m - j))
  | .wsStar :: rest, cs =>
    let m := (cs.takeWhile Char.isWhitespace).length
    (List.range (m + 1)).findSome? fun j => matchSeq rest (cs.drop (m - j))
  | .capLazyNot ex :: rest, cs =>
    let m := (cs.takeWhile (· ≠ ex)).length
    (List.range m).findSome? fun j =>
      (matchSeq rest (cs.drop (j + 1))).map fun caps => cs.take (j + 1) :: caps
  | .capGreedyNot ex :: rest, cs =>
    let m := (cs.takeWhile (· ≠ ex)).length
    (List.range m).findSome? fun j =>
      (matchSeq rest (cs.drop (m - j))).map fun caps => cs.take (m - j) :: caps
  | .capGreedyAny :: rest, cs =>
    (List.range cs.length).findSome? fun j =>
      (matchSeq rest (cs.drop (cs.length - j))).map fun caps => cs.take (cs.length - j) :: caps

/-- The ordered operator alternatives of `parseCondition`'s
`/(not matches|starts with|ends with|matches|contains|is not|is)/`; the
order is load-bearing (longer tokens first). -/
def operatorAlternatives : List (String × Operator) :=
  [("not matches", .notMatches), ("starts with", .startsWith), ("ends with", .endsWith),
   ("matches", .matches), ("contains", .contains), ("is not", .isNot), ("is", .is)]

/-- Locate the first (leftmost position, then alternative order) operator
token in a condition chunk, returning the text to its left, the operator and
the text to its right — the JavaScript `match` + `substring` split of
`parseCondition`. -/
def splitAtOperator : List Char → Option (List Char × Operator × List Char)
  | [] => none
  | c :: rest =>
    match operatorAlternatives.find? (fun p => p.1.data.isPrefixOf (c :: rest)) with
    | some p => some ([], p.2, (c :: rest).drop p.1.data.length)
    | none =>
      (splitAtOperator rest).map fun lor => (c :: lor.1, lor.2.1, lor.2.2)

/-- One alternative of the `^(child|children)\(([^)]+)\)\.(.+)$` pattern of
`parseOperand`: the pattern is deterministic because `[^)]+` cannot cross the
closing parenthesis. -/
def tryChildPattern (name : String) (sc : Scope) (cs : List Char) :
    Option (Scope × List Char × String) :=
  let pre := name.data ++ ['(']
  if pre.isPrefixOf cs then
    let rest := cs.drop pre.length
    let inner := rest.takeWhile (· ≠ ')')
    if inner.isEmpty then none
    else
      match rest.drop inner.length with
      | ')' :: '.' :: f => if f.isEmpty then none else some (sc, inner, String.mk f)
      | _ => none
  else none

/-- The `^(child|children)\(([^)]+)\)\.(.+)$` pattern of `parseOperand`,
with the `child` alternative tried before `children` as in the regular
expression: returns the scope, the text inside the parentheses and the field
after the dot. -/
def matchChildPattern (cs : List Char) : Option (Scope × List Char × String) :=
  (tryChildPattern "child" .child cs) <|> (tryChildPattern "children" .children cs)

/-- The `^(me|parent|child|children)\.(.+)$` pattern of `parseOperand`,
alternatives in regular-expression order (`child` before `children`; a
`children.` prefix only matches the `children` alternative because `child`
is followed by `r`, not `.`). -/
def matchScopeField (cs : List Char) : Option (Scope × String) :=
  let tryPat : String → Scope → Option (Scope × String) := fun name sc =>
    if (name.data ++ ['.']).isPrefixOf cs ∧ name.data.length + 1 < cs.length then
      some (sc, String.mk (cs.drop (name.data.length + 1)))
    else none
  tryPat "me" .me <|> tryPat "parent" .parent <|> tryPat "child" .child <|>
    tryPat "children" .children

mutual

/-- `DSLParser.parseCondition`: find the first operator token; without one the
chunk yields no condition (it is silently dropped by the caller); otherwise
parse the trimmed left and right texts as operands.

The mutual recursion with `parseOperandFuel` descends strictly in text
length (`splitAtOperator_length`, `matchChildPattern_length`,
`trimChars_length_le`), so a fuel of the text's length always suffices; the
fuel parameter only makes the recursion structural so that the parser
computes by kernel reduction.  The entry points `parseConditionChars` and
`parseOperandChars` below supply that fuel. -/
def parseConditionFuel : Nat → List Char → Option Condition
  | fuel, cs =>
    match splitAtOperator cs with
    | none => none
    | some (l, op, r) =>
      match fuel with
      | 0 => none
      | fuel + 1 =>
        some (.mk (parseOperandFuel fuel (trimChars l)) op
          (parseOperandFuel fuel (trimChars r)))

/-- `DSLParser.parseOperand`: trim, then in order: a quoted string is a
constant; the `child(condition).field` pattern re-enters condition parsing on
the text inside the parentheses (producing a one-element condition list, or
an empty list if that text has no operator token); a `scope.field` pattern
yields a plain object operand; anything else is an implicit-scope field. -/
def parseOperandFuel : Nat → List Char → Operand
  | fuel, cs0 =>
    if (trimChars cs0).head? = some '"' ∧ (trimChars cs0).getLast? = some '"' then
      .const (String.mk ((trimChars cs0).drop 1).dropLast)
    else
      match matchChildPattern (trimChars cs0) with
      | some (sc, inner, f) =>
        match fuel with
        | 0 => .obj sc (some []) f
        | fuel + 1 => .obj sc (some (parseConditionFuel fuel inner).toList) f
      | none =>
        match matchScopeField (trimChars cs0) with
        | some (sc, f) => .obj sc none f
        | none => .obj .implicit none (String.mk (trimChars cs0))

end

/-- `DSLParser.parseCondition` on a character list (fuel supplied, see
`parseConditionFuel`). -/
def parseConditionChars (cs : List Char) : Option Condition :=
  parseConditionFuel cs.length cs

/-- `DSLParser.parseOperand` on a character list (fuel supplied, see
`parseConditionFuel`). -/
def parseOperandChars (cs : List Char) : Operand :=
  parseOperandFuel cs.length cs

/-- `DSLParser.parseAlterOptions`: absent options text yields the empty
record; `notifications` anywhere in the text enables notifications
(`suppressNotifications = false`); `bypassRules` anywhere sets
`bypassRules = true`. -/
def parseAlterOptions (optionsText : Option String) : AlterOptions :=
  match optionsText with
  | none => {}
  | some t =>
    { suppressNotifications := if strIncludes t "notifications" then some false else none,
      bypassRules := if strIncludes t "bypassRules" then some true else none }

/-- `/^set(?:\s+with\s+([^=]+?))?\s+([^=]+?)\s*=\s*(.+)$/` with the optional
group present. -/
def setWithPattern : List RE :=
  [.lit "set", .wsPlus, .lit "with", .wsPlus, .capLazyNot '=', .wsPlus,
   .capLazyNot '=', .wsStar, .lit "=", .wsStar, .capGreedyAny]

/-- The same pattern with the optional `with` group absent. -/
def setPlainPattern : List RE :=
  [.lit "set", .wsPlus, .capLazyNot '=', .wsStar, .lit "=", .wsStar, .capGreedyAny]

/-- `/^add(?:\s+with\s+([^"]+?))?\s+"([^"]+)"\s+to\s+(.+)$/` with the optional
group present. -/
def addWithPattern : List RE :=
  [.lit "add", .wsPlus, .lit "with", .wsPlus, .capLazyNot '"', .wsPlus,
   .lit "\"", .capGreedyNot '"', .lit "\"", .wsPlus, .lit "to", .wsPlus, .capGreedyAny]

/-- The same pattern with the optional `with` group absent. -/
def addPlainPattern : List RE :=
  [.lit "add", .wsPlus, .lit "\"", .capGreedyNot '"', .lit "\"", .wsPlus,
   .lit "to", .wsPlus, .capGreedyAny]

/-- `/^remove(?:\s+with\s+([^"]+?))?\s+"([^"]+)"\s+from\s+(.+)$/` with the
optional group present. -/
def removeWithPattern : List RE :=
  [.lit "remove", .wsPlus, .lit "with", .wsPlus, .capLazyNot '"', .wsPlus,
   .lit "\"", .capGreedyNot '"', .lit "\"", .wsPlus, .lit "from", .wsPlus, .capGreedyAny]

/-- The same pattern with the optional `with` group absent. -/
def removePlainPattern : List RE :=
  [.lit "remove", .wsPlus, .lit "\"", .capGreedyNot '"', .lit "\"", .wsPlus,
   .lit "from", .wsPlus, .capGreedyAny]

/-- Build the `set` action from its matched groups. -/
def mkSetAction (optsText : Option (List Char)) (leftText valueText : List Char) :
    RuleAction :=
  { operator := .set,
    alterOptions := parseAlterOptions (optsText.map String.mk),
    assignableLeftOperand := parseOperandChars (trimChars leftText),
    valueToAssign := parseOperandChars (trimChars valueText) }

/-- Build the `add`/`remove` actions from their matched groups: the quoted
group becomes a constant value and the field text is parsed as the target
operand. -/
def mkTagAction (operator : ActionOp) (optsText : Option (List Char))
    (valueText fieldText : List Char) : RuleAction :=
  { operator := operator,
    alterOptions := parseAlterOptions (optsText.map String.mk),
    assignableLeftOperand := parseOperandChars (trimChars fieldText),
    valueToAssign := .const (String.mk valueText) }

/-- `DSLParser.parseAction`: try the three anchored action patterns in order
(`set`, `add`, `remove`, each with the optional `with` group tried before its
absence); a chunk matching none of them yields no action and is silently
skipped by the caller. -/
def parseActionChars (cs : List Char) : Option RuleAction :=
  match matchSeq setWithPattern cs with
  | some [o, l, v] => some (mkSetAction (some o) l v)
  | _ =>
    match matchSeq setPlainPattern cs with
    | some [l, v] => some (mkSetAction none l v)
    | _ =>
      match matchSeq addWithPattern cs with
      | some [o, val, fld] => some (mkTagAction .add (some o) val fld)
      | _ =>
        match matchSeq addPlainPattern cs with
        | some [val, fld] => some (mkTagAction .add none val fld)
        | _ =>
          match matchSeq removeWithPattern cs with
          | some [o, val, fld] => some (mkTagAction .remove (some o) val fld)
          | _ =>
            match matchSeq removePlainPattern cs with
            | some [val, fld] => some (mkTagAction .remove none val fld)
            | _ => none

/-- `DSLParser.splitByAndPreservingQuotes`: scan character by character,
toggling quote state on `"`, splitting on the five-character ` and `
sequence outside quotes (the separator branch pushes the trimmed accumulator
unconditionally; the final accumulator is pushed only when its trimmed form
is non-empty).  The quote toggle is checked first in the source, but the
separator starts with a space, so the two tests never overlap. -/
def splitByAndGo : List Char → Bool → List Char → List String
  | [], _, current =>
    if strTrim (String.mk current) = "" then [] else [strTrim (String.mk current)]
  | ' ' :: 'a' :: 'n' :: 'd' :: ' ' :: tail, inQuotes, current =>
    if inQuotes then splitByAndGo ('a' :: 'n' :: 'd' :: ' ' :: tail) inQuotes (current ++ [' '])
    else strTrim (String.mk current) :: splitByAndGo tail inQuotes []
  | c :: rest, inQuotes, current =>
    if c = '"' then splitByAndGo rest (!inQuotes) (current ++ [c])
    else splitByAndGo rest inQuotes (current ++ [c])

/-- `DSLParser.splitByAndPreservingQuotes` on a string. -/
def splitByAndPreservingQuotes (text : String) : List String :=
  splitByAndGo text.data false []

/-- The keyword probe of `DSLParser.splitActions`: at the current position,
try `set`, `add`, `remove` in order, requiring the keyword to be followed by
a space or the end of the text. -/
def actionKeywordAt : List Char → Option (String × List Char)
  | 's' :: 'e' :: 't' :: rest =>
    if rest.head?.all (· = ' ') then some ("set", rest) else none
  | 'a' :: 'd' :: 'd' :: rest =>
    if rest.head?.all (· = ' ') then some ("add", rest) else none
  | 'r' :: 'e' :: 'm' :: 'o' :: 'v' :: 'e' :: rest =>
    if rest.head?.all (· = ' ') then some ("remove", rest) else none
  | _ => none

/-- `DSLParser.splitActions`: scan for action keywords at word boundaries
(position 0 or preceded by a space) provided the accumulator is non-blank;
each keyword starts a new chunk.  `boundary` records whether the previous
character was a space (or the scan is at the start). -/
def splitActionsGo : List Char → Bool → List Char → List String
  | [], _, current =>
    if strTrim (String.mk current) = "" then [] else [strTrim (String.mk current)]
  | 's' :: 'e' :: 't' :: rest, boundary, current =>
    if strTrim (String.mk current) ≠ "" ∧ boundary ∧ rest.head?.all (· = ' ') then
      strTrim (String.mk current) :: splitActionsGo rest false "set".data
    else splitActionsGo ('e' :: 't' :: rest) ('s' == ' ') (current ++ ['s'])
  | 'a' :: 'd' :: 'd' :: rest, boundary, current =>
    if strTrim (String.mk current) ≠ "" ∧ boundary ∧ rest.head?.all (· = ' ') then
      strTrim (String.mk current) :: splitActionsGo rest false "add".data
    else splitActionsGo ('d' :: 'd' :: rest) ('a' == ' ') (current ++ ['a'])
  | 'r' :: 'e' :: 'm' :: 'o' :: 'v' :: 'e' :: rest, boundary, current =>
    if strTrim (String.mk current) ≠ "" ∧ boundary ∧ rest.head?.all (· = ' ') then
      strTrim (String.mk current) :: splitActionsGo rest false "remove".data
    else splitActionsGo ('e' :: 'm' :: 'o' :: 'v' :: 'e' :: rest) ('r' == ' ') (current ++ ['r'])
  | c :: rest, _, current => splitActionsGo rest (c == ' ') (current ++ [c])

/-- `DSLParser.splitActions` on a string. -/
def splitActions (text : String) : List String :=
  splitActionsGo text.data true []

/-! ## Line-level parsing (`DSLParser.parse` and the clause parsers) -/

/-- JS `dslText.split('\n')`. -/
def splitLinesGo : List Char → List Char → List String
  | [], cur => [String.mk cur]
  | '\n' :: rest, cur => String.mk cur :: splitLinesGo rest []
  | c :: rest, cur => splitLinesGo rest (cur ++ [c])

/-- The line preprocessing of `DSLParser.parse`: split on newlines, trim each
line, drop blank lines and `#` comments. -/
def preprocessLines (dslText : String) : List String :=
  ((splitLinesGo dslText.data []).map strTrim).filter
    (fun l => l.data.length > 0 && !(strStartsWith l "#"))

/-- `line.replace(/^\s*when\s+/, '')` (and the analogous `then` form): strip
leading whitespace, the keyword and at least one following whitespace
character; if the pattern does not match, the line is returned unchanged. -/
def stripClauseKeyword (kw : String) (line : String) : String :=
  let cs := line.data.dropWhile Char.isWhitespace
  if kw.data.isPrefixOf cs then
    match cs.drop kw.data.length with
    | c :: rest =>
      if c.isWhitespace then String.mk ((c :: rest).dropWhile Char.isWhitespace) else line
    | [] => line
  else line

/-- The multi-line accumulation loop of `parseWhenConditions`: keep appending
trimmed lines (space-joined) until a line starting with `then ` (after
trimming), a blank line, or the end of input; returns the accumulated text
and the number of lines consumed. -/
def accumulateWhen : List String → String → String × Nat
  | [], acc => (acc, 0)
  | line :: rest, acc =>
    if strStartsWith (strTrim line) "then " || strTrim line = "" then (acc, 0)
    else
      let next := accumulateWhen rest (acc ++ " " ++ strTrim line)
      (next.1, next.2 + 1)

/-- The multi-line accumulation loop of `parseThenActions`: keep appending
trimmed lines until a line starting with `rule ` (untrimmed check), a blank
line, or the end of input. -/
def accumulateThen : List String → String → String × Nat
  | [], acc => (acc, 0)
  | line :: rest, acc =>
    if strStartsWith line "rule " || strTrim line = "" then (acc, 0)
    else
      let next := accumulateThen rest (acc ++ " " ++ strTrim line)
      (next.1, next.2 + 1)

/-- The condition list built from the ` and `-split chunks: each chunk is
trimmed and parsed; chunks yielding no condition are skipped
(`if (condition) conditions.push(condition)`). -/
def conditionsOfParts (parts : List String) : List Condition :=
  parts.filterMap fun part => parseConditionChars (strTrim part).data

/-- The action list built from the keyword-split chunks, skipping chunks that
parse as no action. -/
def actionsOfParts (parts : List String) : List RuleAction :=
  parts.filterMap fun part => parseActionChars (strTrim part).data

/-- `DSLParser.parseWhenConditions` at line index `i` (0-based): requires the
current line to start with `when `, accumulates the condition text over
following lines, splits it on ` and ` preserving quotes and parses each
chunk.  Returns the conditions and the index of the next unconsumed line. -/
def parseWhenConditionsAt (lines : List String) (i : Nat) :
    Except String (List Condition × Nat) :=
  match lines.get? i with
  | some line =>
    if strStartsWith (strTrim line) "when " then
      let conditionText := stripClauseKeyword "when" line
      let acc := accumulateWhen (lines.drop (i + 1)) conditionText
      let parts := splitByAndPreservingQuotes acc.1
      .ok (conditionsOfParts parts, i + 1 + acc.2)
    else .error ("Expected 'when' clause at line " ++ toString (i + 1))
  | none => .error ("Expected 'when' clause at line " ++ toString (i + 1))

/-- `DSLParser.parseThenActions` at line index `i`: requires the current line
to start with `then `, accumulates the action text, splits it on action
keywords and parses each chunk. -/
def parseThenActionsAt (lines : List String) (i : Nat) :
    Except String (List RuleAction × Nat) :=
  match lines.get? i with
  | some line =>
    if strStartsWith (strTrim line) "then " then
      let actionText := stripClauseKeyword "then" line
      let acc := accumulateThen (lines.drop (i + 1)) actionText
      let parts := splitActions acc.1
      .ok (actionsOfParts parts, i + 1 + acc.2)
    else .error ("Expected 'then' clause at line " ++ toString (i + 1))
  | none => .error ("Expected 'then' clause at line " ++ toString (i + 1))

/-- The `^rule\s+"([^"]+)":\s*$` header pattern of `parseRule`. -/
def ruleHeaderPattern : List RE :=
  [.lit "rule", .wsPlus, .lit "\"", .capGreedyNot '"', .lit "\":", .wsStar]

/-- `DSLParser.parseRule` at line index `i`: a non-`rule ` line is consumed
and yields no rule; a malformed header raises; otherwise the `when` and
`then` clauses are parsed in sequence.  Returns the optional rule and the
next line index. -/
def parseRuleAt (lines : List String) (i : Nat) :
    Except String (Option Rule × Nat) :=
  match lines.get? i with
  | none => .ok (none, i + 1)
  | some line =>
    if !strStartsWith line "rule " then .ok (none, i + 1)
    else
      match matchSeq ruleHeaderPattern line.data with
      | some [nameChars] => do
        let w ← parseWhenConditionsAt lines (i + 1)
        let t ← parseThenActionsAt lines w.2
        .ok (some { name := String.mk nameChars, whenConditions := w.1, thenActions := t.1 }, t.2)
      | _ => .error ("Invalid rule syntax at line " ++ toString (i + 1) ++ ": " ++ line)

/-- The `while (this.currentIndex < this.lines.length)` loop of
`DSLParser.parse`.  Every `parseRule` call advances the index by at least
one, so `lines.length + 1` steps of fuel always suffice; exhausted fuel is
reported as an error and is never reached from `parse`. -/
def parseSteps : Nat → List String → Nat → Except String (List Rule)
  | 0, _, _ => .error "parse loop exhausted"
  | fuel + 1, lines, i =>
    if i < lines.length then do
      let r ← parseRuleAt lines i
      let rest ← parseSteps fuel lines r.2
      match r.1 with
      | some rule => .ok (rule :: rest)
      | none => .ok rest
    else .ok []

/-- `DSLParser.parse`: preprocess the text into lines and run the rule loop
over them. -/
def parse (dslText : String) : Except String (List Rule) :=
  let lines := preprocessLines dslText
  parseSteps (lines.length + 1) lines 0

/-! ## Concrete inputs used by the claim theorems -/

/-- A regular-expression oracle that never matches; the concrete claims below
only exercise non-regex operators, so the oracle is irrelevant to them. -/
def rtNone : String → String → Bool := fun _ _ => false

/-- A plain work item used as a triggering item in concrete runs. -/
def plainItem : WorkItem :=
  { id := 1, url := "http://wi/1", fields := [("System.Title", .str "T")] }

/-- A child work item titled "Dev Task". -/
def devChild : WorkItem :=
  { id := 11, url := "http://wi/11",
    fields := [("System.Title", .str "Dev Task"),
               ("System.AssignedTo", .user "Dev Developer" "dev@example.com")] }

/-- A child work item titled "Test Task". -/
def testChild : WorkItem :=
  { id := 12, url := "http://wi/12",
    fields := [("System.Title", .str "Test Task"),
               ("System.AssignedTo", .user "Tess Tester" "tess@example.com")] }

/-- The nested condition of `child(Title contains "Test")`: an unprefixed
(implicit-scope) `Title` compared against the constant `"Test"`. -/
def titleContainsTest : Condition :=
  .mk (.obj .implicit none "Title") .contains (.const "Test")

/-- The operand `child(Title contains "Test").AssignedTo` as the parser
produces it. -/
def childAssignedToOperand : Operand :=
  .obj .child (some [titleContainsTest]) "AssignedTo"

/-- A DSL text whose then-clause contains no parseable action. -/
def c2DemoText : String :=
  "rule \"R\":\nwhen x is \"y\"\nthen nothing here"

/-- The rule that `parse` returns for `c2DemoText`: note the empty `then`
list. -/
def c2DemoRule : Rule :=
  { name := "R",
    whenConditions := [.mk (.obj .implicit none "x") .is (.const "y")],
    thenActions := [] }

/-- A DSL text whose rule has no `then` line at all. -/
def c2NoThenText : String :=
  "rule \"R\":\nwhen x is \"y\""

/-- A rule whose single condition is false on `plainItem`. -/
def c3RuleOff : Rule :=
  { name := "off",
    whenConditions := [.mk (.obj .me none "Title") .is (.const "Other")],
    thenActions := [⟨.set, {}, .obj .me none "State", .const "Blocked"⟩] }

/-- A rule whose single condition is true on `plainItem`. -/
def c3RuleOn : Rule :=
  { name := "on",
    whenConditions := [.mk (.obj .me none "Title") .is (.const "T")],
    thenActions := [⟨.set, {}, .obj .me none "State", .const "Done"⟩] }

/-- A later rule that would also fire (empty `when`), but must never run. -/
def c3RuleAfter : Rule :=
  { name := "after",
    whenConditions := [],
    thenActions := [⟨.set, {}, .obj .me none "State", .const "Later"⟩] }

/-- A work item whose Tags already equal `"Done"`. -/
def wiTagsDone : WorkItem :=
  { id := 21, url := "http://wi/21", fields := [("System.Tags", .str "Done")] }

/-- A work item whose Tags equal `"InProgress"`. -/
def wiTagsInProgress : WorkItem :=
  { id := 22, url := "http://wi/22", fields := [("System.Tags", .str "InProgress")] }

/-- The action `add "Done" to Tags`. -/
def addDoneToTags : RuleAction :=
  ⟨.add, {}, .obj .implicit none "Tags", .const "Done"⟩

/-- The action `remove "Done" from Tags`. -/
def removeDoneFromTags : RuleAction :=
  ⟨.remove, {}, .obj .implicit none "Tags", .const "Done"⟩

/-- A condition whose left operand reads the parent's title. -/
def parentTitleCondition : Condition :=
  .mk (.obj .parent none "Title") .is (.const "x")

/-- An update operation that explicitly requests notifications. -/
def opNotify : UpdateOperation :=
  ⟨"http://wi/9", some false, none, "replace", "/fields/System.State", "Active"⟩

/-- An update operation that requests rule bypassing. -/
def opBypass : UpdateOperation :=
  ⟨"http://wi/9", none, some true, "replace", "/fields/System.Title", "T"⟩

/-! ## Supporting lemmas

These bound the mutual recursion of condition/operand parsing: each level
descends to a strictly shorter text, so the `length`-sized fuel supplied by
`parseConditionChars` / `parseOperandChars` is never exhausted. -/

/-- `dropWhile` never lengthens a list. -/
theorem dropWhile_length_le (p : Char → Bool) (cs : List Char) :
    (cs.dropWhile p).length ≤ cs.length := by
  induction cs with
  | nil => simp [List.dropWhile]
  | cons c rest ih =>
    by_cases h : p c
    · rw [List.dropWhile_cons_of_pos h]
      simp only [List.length_cons]
      omega
    · rw [List.dropWhile_cons_of_neg h]

/-- The trimmed list is never longer than the input. -/
theorem trimChars_length_le (cs : List Char) : (trimChars cs).length ≤ cs.length := by
  unfold trimChars
  have h1 := dropWhile_length_le Char.isWhitespace cs
  have h2 := dropWhile_length_le Char.isWhitespace
    ((cs.dropWhile Char.isWhitespace).reverse)
  simp only [List.length_reverse] at *
  omega

/-- Every operator token has at least two characters. -/
theorem operatorAlternatives_len (p : String × Operator)
    (hp : p ∈ operatorAlternatives) : 2 ≤ p.1.data.length := by
  fin_cases hp <;> decide

/-- An operator split strictly shortens both sides. -/
theorem splitAtOperator_length (cs l : List Char) (op : Operator) (r : List Char)
    (h : splitAtOperator cs = some (l, op, r)) :
    l.length < cs.length ∧ r.length < cs.length := by
  induction cs generalizing l op r with
  | nil => simp [splitAtOperator] at h
  | cons c rest ih =>
    rw [splitAtOperator] at h
    cases hf : operatorAlternatives.find? (fun p => p.1.data.isPrefixOf (c :: rest)) with
    | some p =>
      rw [hf] at h
      simp only [Option.some.injEq, Prod.mk.injEq] at h
      obtain ⟨h1, h2, h3⟩ := h
      have hmem := List.mem_of_find?_eq_some hf
      have hlen := operatorAlternatives_len p hmem
      have hpre : p.1.data.isPrefixOf (c :: rest) = true := by
        have := List.find?_some hf
        simpa using this
      have hple : p.1.data.length ≤ (c :: rest).length :=
        (List.isPrefixOf_iff_prefix.mp hpre).length_le
      subst h1 h3
      constructor
      · simp
      · simp only [List.length_drop, List.length_cons] at *
        omega
    | none =>
      rw [hf] at h
      simp only [Option.map_eq_some'] at h
      obtain ⟨lor, hlor, heq⟩ := h
      obtain ⟨l', op', r'⟩ := lor
      have := ih l' op' r' hlor
      simp only [Prod.mk.injEq] at heq
      obtain ⟨h1, h2, h3⟩ := heq
      subst h1 h2 h3
      simp only [List.length_cons]
      omega

/-- A successful `tryChildPattern` returns an inner text strictly shorter
than the operand text. -/
theorem tryChildPattern_length (name : String) (sc : Scope) (cs : List Char)
    (sc' : Scope) (inner : List Char) (f : String)
    (h : tryChildPattern name sc cs = some (sc', inner, f)) :
    inner.length < cs.length := by
  unfold tryChildPattern at h
  simp only [] at h
  split at h
  case isTrue hpre =>
    have hple : (name.data ++ ['(']).length ≤ cs.length :=
      (List.isPrefixOf_iff_prefix.mp hpre).length_le
    have htw : ((cs.drop (name.data ++ ['(']).length).takeWhile (· ≠ ')')).length ≤
        (cs.drop (name.data ++ ['(']).length).length :=
      List.Sublist.length_le (List.takeWhile_sublist _)
    split at h
    · exact absurd h (by simp)
    · split at h
      case h_1 f' heq =>
        split at h
        · exact absurd h (by simp)
        · simp only [Option.some.injEq, Prod.mk.injEq] at h
          obtain ⟨hs, hi, hf⟩ := h
          subst hi
          simp only [List.length_drop, List.length_append, List.length_cons,
            List.length_nil] at htw hple ⊢
          omega
      case h_2 => exact absurd h (by simp)
  case isFalse => exact absurd h (by simp)

/-- The inner condition text is strictly shorter than the operand text. -/
theorem matchChildPattern_length (cs : List Char) (sc : Scope) (inner : List Char)
    (f : String) (h : matchChildPattern cs = some (sc, inner, f)) :
    inner.length < cs.length := by
  unfold matchChildPattern at h
  rcases h1 : tryChildPattern "child" .child cs with _ | v
  · rw [h1] at h
    simp only [Option.none_orElse] at h
    exact tryChildPattern_length _ _ _ _ _ _ h
  · rw [h1] at h
    simp only [Option.some_orElse] at h
    injection h with hv
    subst hv
    exact tryChildPattern_length _ _ _ _ _ _ h1

/-- JS `includes` agrees with the infix-sublist relation. -/
theorem hasInfix_spec (hay needle : List Char) :
    hasInfix hay needle = true ↔ needle <:+: hay := by
  induction hay with
  | nil =>
    rw [hasInfix]
    simp [List.isPrefixOf_iff_prefix]
  | cons c t ih =>
    rw [hasInfix]
    simp only [Bool.or_eq_true, List.isPrefixOf_iff_prefix, ih, List.infix_cons_iff]

/-- The trimmed list is an infix of the original. -/
theorem trimChars_isSubpart (cs : List Char) : trimChars cs <:+: cs := by
  unfold trimChars
  have h1 : cs.dropWhile Char.isWhitespace <:+ cs := List.dropWhile_suffix _
  have h2 : (cs.dropWhile Char.isWhitespace).reverse.dropWhile Char.isWhitespace <:+
      (cs.dropWhile Char.isWhitespace).reverse := List.dropWhile_suffix _
  have h3 := List.reverse_prefix.mpr h2
  rw [List.reverse_reverse] at h3
  exact h3.isInfix.trans h1.isInfix

/-- A chunk containing no operator token has no operator split. -/
theorem splitAtOperator_none_of_no_token (cs : List Char)
    (h : ∀ p ∈ operatorAlternatives, hasInfix cs p.1.data = false) :
    splitAtOperator cs = none := by
  induction cs with
  | nil => rfl
  | cons c rest ih =>
    have hfind : operatorAlternatives.find? (fun p => p.1.data.isPrefixOf (c :: rest)) = none := by
      rw [List.find?_eq_none]
      intro p hp
      have hcp := h p hp
      rw [hasInfix] at hcp
      simp only [Bool.or_eq_false_iff] at hcp
      simp [hcp.1]
    have hrest : ∀ p ∈ operatorAlternatives, hasInfix rest p.1.data = false := by
      intro p hp
      have hcp := h p hp
      rw [hasInfix] at hcp
      exact (Bool.or_eq_false_iff.mp hcp).2
    rw [splitAtOperator, hfind, ih hrest]
    rfl

/-- The fuel threaded through `parseConditionFuel` / `parseOperandFuel` is
inert: any two fuels at least as large as the text give identical results, so
the `length`-sized fuel of the entry points realizes the unbounded recursion
of the TypeScript parser. -/
theorem parseFuel_irrelevant (k : Nat) :
    (∀ (cs : List Char) (n m : Nat), cs.length ≤ k → cs.length ≤ n → cs.length ≤ m →
      parseConditionFuel n cs = parseConditionFuel m cs) ∧
    (∀ (cs : List Char) (n m : Nat), cs.length ≤ k → cs.length ≤ n → cs.length ≤ m →
      parseOperandFuel n cs = parseOperandFuel m cs) := by
  induction k using Nat.strong_induction_on with
  | _ k ih =>
    constructor
    · intro cs n m hk hn hm
      simp only [parseConditionFuel]
      rcases hs : splitAtOperator cs with _ | ⟨l, op, r⟩
      · rfl
      · obtain ⟨hl, hr⟩ := splitAtOperator_length cs l op r hs
        have hcs1 : 1 ≤ cs.length := by omega
        rcases n with _ | n'
        · omega
        rcases m with _ | m'
        · omega
        have htl := trimChars_length_le l
        have htr := trimChars_length_le r
        have e1 := (ih (trimChars l).length (by omega)).2 (trimChars l) n' m'
          le_rfl (by omega) (by omega)
        have e2 := (ih (trimChars r).length (by omega)).2 (trimChars r) n' m'
          le_rfl (by omega) (by omega)
        simp only [e1, e2]
    · intro cs n m hk hn hm
      simp only [parseOperandFuel]
      rcases hq : matchChildPattern (trimChars cs) with _ | ⟨sc, inner, f⟩
      · rfl
      · have hinner : inner.length < (trimChars cs).length :=
          matchChildPattern_length (trimChars cs) sc inner f hq
        have htc := trimChars_length_le cs
        rcases n with _ | n'
        · omega
        rcases m with _ | m'
        · omega
        have e := (ih inner.length (by omega)).1 inner n' m' le_rfl (by omega) (by omega)
        simp only [e]

/-- Any sufficiently large fuel computes `parseConditionChars`. -/
theorem parseConditionFuel_eq (n : Nat) (cs : List Char) (h : cs.length ≤ n) :
    parseConditionFuel n cs = parseConditionChars cs :=
  (parseFuel_irrelevant cs.length).1 cs n cs.length le_rfl h le_rfl

/-- Any sufficiently large fuel computes `parseOperandChars`. -/
theorem parseOperandFuel_eq (n : Nat) (cs : List Char) (h : cs.length ≤ n) :
    parseOperandFuel n cs = parseOperandChars cs :=
  (parseFuel_irrelevant cs.length).2 cs n cs.length le_rfl h le_rfl

/-! ## Claim theorems -/

/-- C7: with no nested conditions (the condition list absent or empty),
`children` resolves to the entire candidate list while `child` resolves to
exactly the first candidate (`head?`, hence nothing on an empty candidate
list, while `children` yields the empty list). -/
theorem c7_child_children_asymmetry (rt : String → String → Bool)
    (trig : WorkItem) (par : Option WorkItem) (kids : List WorkItem) :
    findMatchingChildren rt none trig par kids = kids ∧
    findMatchingChildren rt (some []) trig par kids = kids ∧
    findMatchingChild rt none trig par kids = kids.head? ∧
    findMatchingChild rt (some []) trig par kids = kids.head? := by
  refine ⟨?_, ?_, ?_, ?_⟩ <;> simp [findMatchingChild, findMatchingChildren]

/-- C10: a rule whose `when` list is empty evaluates to true against every
item context; in particular a rule whose whole condition text was silently
dropped (no recognized operator in its chunk) fires unconditionally. -/
theorem c10_empty_when_vacuous (rt : String → String → Bool) (name : String)
    (acts : List RuleAction) (trig : WorkItem) (par : Option WorkItem)
    (kids : List WorkItem) :
    evaluateRule rt ⟨name, [], acts⟩ trig par kids = true ∧
    evaluateRule rt ⟨name, conditionsOfParts ["fires unconditionally"], acts⟩
      trig par kids = true := by
  have hdrop : conditionsOfParts ["fires unconditionally"] = [] := rfl
  constructor
  · simp [evaluateRule]
  · simp [evaluateRule, hdrop]

/-- C8: for a non-empty group of operations destined for one work item, the
dispatched `suppressNotifications` is false exactly when some operation
explicitly carries `suppressNotifications = false`, and the dispatched
`bypassRules` is true exactly when some operation carries
`bypassRules = true`. -/
theorem c8_dispatch_flag_merge (ops : List UpdateOperation) (u : String)
    (hne : ops ≠ []) (hurl : ∀ op ∈ ops, op.url = u) :
    ((sendFlags ops).1 = false ↔ ∃ op ∈ ops, op.suppressNotifications = some false) ∧
    ((sendFlags ops).2 = true ↔ ∃ op ∈ ops, op.bypassRules = some true) := by
  constructor
  · have h1 : (sendFlags ops).1 = false ↔
        ops.any (fun op => op.suppressNotifications == some false) = true := by
      unfold sendFlags
      by_cases h : ops.any (fun op => op.suppressNotifications == some false) = true <;>
        simp [h]
    rw [h1, List.any_eq_true]
    simp
  · have h2 : (sendFlags ops).2 = true ↔
        ops.any (fun op => op.bypassRules == some true) = true := by
      unfold sendFlags
      by_cases h : ops.any (fun op => op.bypassRules == some true) = true <;> simp [h]
    rw [h2, List.any_eq_true]
    simp

/-- Witness for C8 at a concrete two-operation group. -/
theorem c8_dispatch_flag_merge_witness :
    ((sendFlags [opNotify, opBypass]).1 = false ↔
      ∃ op ∈ [opNotify, opBypass], op.suppressNotifications = some false) ∧
    ((sendFlags [opNotify, opBypass]).2 = true ↔
      ∃ op ∈ [opNotify, opBypass], op.bypassRules = some true) :=
  c8_dispatch_flag_merge [opNotify, opBypass] "http://wi/9" (by decide)
    (by decide)

/-- C6: condition evaluation fails closed: an unresolved operand (missing
field, absent parent, no matching child) makes the condition false — the
evaluator is a total function, so no exception can arise — and with both
operands resolved the comparison applies the operator to the string coercions
of the two values. -/
theorem c6_fail_closed_evaluation (rt : String → String → Bool) (c : Condition)
    (impl trig : WorkItem) (par : Option WorkItem) (kids : List WorkItem) :
    ((resolveOperand rt c.leftOperand impl trig par kids = none ∨
      resolveOperand rt c.rightOperand impl trig par kids = none) →
      evaluateCondition rt c impl trig par kids = false) ∧
    (∀ lv rv, resolveOperand rt c.leftOperand impl trig par kids = some lv →
      resolveOperand rt c.rightOperand impl trig par kids = some rv →
      evaluateCondition rt c impl trig par kids =
        applyOperator rt c.operator lv.toStr rv.toStr) := by
  obtain ⟨l, op, r⟩ := c
  simp only [Condition.leftOperand, Condition.operator, Condition.rightOperand]
  constructor
  · rintro (h | h)
    · simp [evaluateCondition, h]
    · rcases hl : resolveOperand rt l impl trig par kids with _ | lv <;>
        simp [evaluateCondition, hl, h]
  · intro lv rv h1 h2
    simp [evaluateCondition, h1, h2]

/-- Witness for C6: a parent-scoped operand with no parent present resolves
to nothing and the condition evaluates to false. -/
theorem c6_fail_closed_evaluation_witness :
    evaluateCondition rtNone parentTitleCondition plainItem plainItem none [] = false :=
  (c6_fail_closed_evaluation rtNone parentTitleCondition plainItem plainItem none []).1
    (Or.inl (by simp [parentTitleCondition, Condition.leftOperand, resolveOperand,
      getWorkItemForOperand]))

/-- C4: an `add` action on the tag field emits one replace operation with the
value appended to the `"; "`-split tag list only when not already present
(zero operations otherwise), and behaves exactly like `set` on any other
field; concretely, `add "Done" to Tags` emits nothing against Tags `"Done"`
and emits `"InProgress; Done"` against Tags `"InProgress"`. -/
theorem c4_add_idempotent (opts : AlterOptions) (sc : Scope)
    (conds : Option (List Condition)) (f : String) (vo : Operand)
    (wi : WorkItem) (v : Value) :
    (opsForTarget ⟨.add, opts, .obj sc conds f, vo⟩ wi v =
      if strLower f = "tags" then
        (if (tagsArrayOf wi).contains (effectiveValueString v) then []
         else [⟨wi.url, opts.suppressNotifications, opts.bypassRules, "replace",
               "/fields/System." ++ f,
               joinTags (tagsArrayOf wi ++ [effectiveValueString v])⟩])
      else opsForTarget ⟨.set, opts, .obj sc conds f, vo⟩ wi v) ∧
    executeAction rtNone addDoneToTags wiTagsDone none [] = [] ∧
    executeAction rtNone addDoneToTags wiTagsInProgress none [] =
      [⟨"http://wi/22", none, none, "replace", "/fields/System.Tags",
        "InProgress; Done"⟩] := by
  refine ⟨?_, ?_, ?_⟩
  · by_cases h : strLower f = "tags" <;>
      simp [opsForTarget, Operand.fieldName, h]
  · have h1 : strLower "Tags" = "tags" := rfl
    have h2 : tagsArrayOf wiTagsDone = ["Done"] := rfl
    simp [executeAction, addDoneToTags, resolveTargetWorkItems, resolveOperand,
      opsForTarget, Operand.fieldName, h1, h2, effectiveValueString, Value.toStr]
  · have h1 : strLower "Tags" = "tags" := rfl
    have h2 : tagsArrayOf wiTagsInProgress = ["InProgress"] := rfl
    have h3 : joinTags ["InProgress", "Done"] = "InProgress; Done" := rfl
    have h4 : wiTagsInProgress.url = "http://wi/22" := rfl
    simp [executeAction, addDoneToTags, resolveTargetWorkItems, resolveOperand,
      opsForTarget, Operand.fieldName, h1, h2, h3, h4, effectiveValueString, Value.toStr]

/-- C5: a `remove` action on the tag field always emits exactly one replace
operation carrying the `"; "`-joined tag list with the exact literal filtered
out — also when the literal was absent (no no-op suppression). -/
theorem c5_remove_always_emits (opts : AlterOptions) (sc : Scope)
    (conds : Option (List Condition)) (f : String) (vo : Operand)
    (wi : WorkItem) (v : Value) (h : strLower f = "tags") :
    opsForTarget ⟨.remove, opts, .obj sc conds f, vo⟩ wi v =
      [⟨wi.url, opts.suppressNotifications, opts.bypassRules, "replace",
        "/fields/System." ++ f,
        joinTags ((tagsArrayOf wi).filter fun tag => tag ≠ effectiveValueString v)⟩] := by
  simp [opsForTarget, Operand.fieldName, h]

/-- Witness for C5: removing the absent literal `"Done"` from Tags
`"InProgress"` still emits one replace operation. -/
theorem c5_remove_always_emits_witness :
    opsForTarget removeDoneFromTags wiTagsInProgress (Value.str "Done") =
      [⟨"http://wi/22", none, none, "replace", "/fields/System.Tags",
        "InProgress"⟩] := by
  have h := c5_remove_always_emits {} Scope.implicit none "Tags"
    (Operand.const "Done") wiTagsInProgress (Value.str "Done") rfl
  exact h

/-- C1: scope shadowing in nested conditions.  During a child search every
condition is evaluated with the candidate as the implicit work item, so an
unprefixed operand reads the candidate's field while a `me`-scoped operand
still reads the triggering item's field; concretely, the parsed operand
`child(Title contains "Test").AssignedTo` selects the "Test Task" child from
`[devChild, testChild]` and yields its assignee, for every triggering item
(its own title is irrelevant). -/
theorem c1_scope_shadowing (rt : String → String → Bool) (cand trig : WorkItem)
    (par : Option WorkItem) (kids : List WorkItem) (f : String) :
    resolveOperand rt (.obj .implicit none f) cand trig par kids = readField cand f ∧
    resolveOperand rt (.obj .me none f) cand trig par kids = readField trig f ∧
    parseOperandChars "child(Title contains \"Test\").AssignedTo".data =
      childAssignedToOperand ∧
    findMatchingChild rt (some [titleContainsTest]) trig par [devChild, testChild] =
      some testChild ∧
    resolveOperand rt childAssignedToOperand trig trig par [devChild, testChild] =
      some (.user "Tess Tester" "tess@example.com") := by
  refine ⟨?_, ?_, by rfl, ?_, ?_⟩
  · simp [resolveOperand, getWorkItemForOperand]
  · simp [resolveOperand, getWorkItemForOperand]
  · simp [findMatchingChild, findFirstMatchingChild, allConditionsMet,
      evaluateCondition, resolveOperand, getWorkItemForOperand, readField, fieldMap,
      applyOperator, titleContainsTest, devChild, testChild, Value.toStr,
      strIncludes, hasInfix]
  · simp [childAssignedToOperand, resolveOperand, getWorkItemForOperand,
      findMatchingChild, findFirstMatchingChild, allConditionsMet,
      evaluateCondition, readField, fieldMap, applyOperator, titleContainsTest,
      devChild, testChild, Value.toStr, strIncludes, hasInfix, List.lookup]

/-- C3: rule evaluation is first-match exclusive.  With every earlier rule
evaluating false, the caller loop returns exactly the operations of the first
true rule, whatever rules follow it; and if every rule evaluates false, zero
operations are produced. -/
theorem c3_first_match_exclusive (rt : String → String → Bool)
    (pre post : List Rule) (r : Rule) (trig : WorkItem) (par : Option WorkItem)
    (kids : List WorkItem)
    (hpre : ∀ rr ∈ pre, evaluateRule rt rr trig par kids = false) :
    (evaluateRule rt r trig par kids = true →
      runRules rt (pre ++ r :: post) trig par kids =
        executeRule rt r trig par kids) ∧
    runRules rt pre trig par kids = [] := by
  induction pre with
  | nil =>
    constructor
    · intro hr
      simp [runRules, hr]
    · rfl
  | cons p rest ih =>
    have hp : evaluateRule rt p trig par kids = false := hpre p (by simp)
    have hrest : ∀ rr ∈ rest, evaluateRule rt rr trig par kids = false := by
      intro rr hrr
      exact hpre rr (by simp [hrr])
    obtain ⟨ih1, ih2⟩ := ih hrest
    constructor
    · intro hr
      simp only [List.cons_append, runRules, hp]
      simp only [Bool.false_eq_true, if_false]
      exact ih1 hr
    · simp only [runRules, hp, Bool.false_eq_true, if_false]
      exact ih2

/-- Witness for C3: with the first rule false on the item, the three-rule run
returns exactly the second rule's operations. -/
theorem c3_first_match_exclusive_witness :
    runRules rtNone [c3RuleOff, c3RuleOn, c3RuleAfter] plainItem none [] =
      executeRule rtNone c3RuleOn plainItem none [] := by
  have h := (c3_first_match_exclusive rtNone [c3RuleOff] [c3RuleAfter] c3RuleOn
    plainItem none []
    (by intro rr hrr
        simp only [List.mem_singleton] at hrr
        subst hrr
        simp [evaluateRule, c3RuleOff, evaluateCondition, resolveOperand,
          getWorkItemForOperand, readField, fieldMap, plainItem, applyOperator,
          Value.toStr])).1
  exact h (by
    simp [evaluateRule, c3RuleOn, evaluateCondition, resolveOperand,
      getWorkItemForOperand, readField, fieldMap, plainItem, applyOperator,
      Value.toStr])

/-- C9: a when-clause chunk containing none of the recognized operator tokens
yields no condition (`parseCondition` returns nothing rather than raising),
and dropping such a chunk from the chunk list leaves the parsed conditions of
all remaining chunks unchanged. -/
theorem c9_operatorless_chunk_dropped (chunk : String)
    (h : ∀ p ∈ operatorAlternatives, strIncludes chunk p.1 = false) :
    parseConditionChars (strTrim chunk).data = none ∧
    ∀ pre post : List String,
      conditionsOfParts (pre ++ chunk :: post) = conditionsOfParts (pre ++ post) := by
  have htrim : ∀ p ∈ operatorAlternatives,
      hasInfix (strTrim chunk).data p.1.data = false := by
    intro p hp
    have hc := h p hp
    unfold strIncludes at hc
    by_contra hx
    rw [Bool.not_eq_false] at hx
    have hinf : p.1.data <:+: trimChars chunk.data := by
      have := (hasInfix_spec _ _).mp hx
      simpa [strTrim] using this
    have hinf2 : p.1.data <:+: chunk.data := hinf.trans (trimChars_isSubpart _)
    rw [← hasInfix_spec] at hinf2
    exact absurd hinf2 (by simp [hc])
  have hs : splitAtOperator (strTrim chunk).data = none :=
    splitAtOperator_none_of_no_token _ htrim
  have hnone : parseConditionChars (strTrim chunk).data = none := by
    unfold parseConditionChars parseConditionFuel
    rw [hs]
  refine ⟨hnone, ?_⟩
  intro pre post
  simp [conditionsOfParts, List.filterMap_append, List.filterMap_cons, hnone]

/-- Witness for C9: an operator-free chunk parses to no condition and its
removal leaves the other chunks' conditions unchanged. -/
theorem c9_operatorless_chunk_dropped_witness :
    parseConditionChars (strTrim "completely unrelated text").data = none ∧
    conditionsOfParts (["me.Title is \"T\""] ++ "completely unrelated text" :: []) =
      conditionsOfParts (["me.Title is \"T\""] ++ []) := by
  have h := c9_operatorless_chunk_dropped "completely unrelated text" (by decide)
  exact ⟨h.1, h.2 ["me.Title is \"T\""] []⟩

/-- C2 counterexample: `parse` can succeed while returning a rule whose
`then` list is empty — the text `rule "R": when x is "y" then nothing here`
parses without error to one rule with no actions, refuting the claimed
invariant. -/
theorem c2_nonempty_then_counterexample :
    ¬ ∀ (dslText : String) (rules : List Rule),
        parse dslText = .ok rules → ∀ r ∈ rules, r.thenActions ≠ [] := by
  intro hall
  exact hall c2DemoText [c2DemoRule] (by rfl) c2DemoRule (by simp) rfl

/-- C2 as amended: a then-clause whose text contains no parseable action
yields a successfully parsed rule with an empty `then` list (it is not a
parse error), while a rule with no `then` line at all is a parse error. -/
theorem c2_empty_then_allowed :
    parse c2DemoText = .ok [c2DemoRule] ∧
    c2DemoRule.thenActions = [] ∧
    parse c2NoThenText = .error "Expected 'then' clause at line 3" :=
  ⟨by rfl, rfl, by rfl⟩

end BCT3ch
